import Mathlib

/-!
Shallow embedding of `src/shuf.py` (external chunk-based line shuffler).

Modelling conventions:
 - a line is an opaque value of a type `α`; at the file level a line is the
   `List Char` produced by Python text-file iteration (terminator kept);
 - randomness is an oracle: `random.shuffle` is an arbitrary family
   `shuf : Nat → List α → List α` (indexed by call count) that the theorems
   constrain to produce permutations, `random.choice` is an arbitrary index
   stream `r : Nat → Nat` reduced modulo the current list length;
 - Python exceptions are surfaced as an `Option PyError` component;
 - the file system is explicit: chunk files are `ChunkPath` values (the
   directory plus the numeric index that `chunk_{k}.txt` encodes), and
   `TemporaryDirectory` teardown is the removal of every path under the
   temporary directory.
-/

namespace Shuf

/-- Python exceptions that the modelled code can raise:
`FileNotFoundError` from `open(input_file, 'r')` and `ZeroDivisionError`
from `(i + 1) % chunk_size` when `chunk_size = 0`. -/
inductive PyError where
  | fileNotFoundError
  | zeroDivisionError
deriving DecidableEq

variable {α : Type}

/-- Loop body of `split_into_chunks` (src/shuf.py lines 40-56): iterate over the
input lines with index `i`, accumulate the current `chunk` (Python
`chunk.append(line)` appends at the end), and on `(i + 1) % chunk_size == 0`
persist `shuf k chunk` as chunk number `k = chunk_files.length`
(`random.shuffle(chunk)` then `chunk_file.writelines(chunk)`), clearing the
buffer; after the input is exhausted a non-empty buffer is persisted the same
way.  `chunk_size = 0` raises `ZeroDivisionError` at the first modulo, i.e. at
the first line; the first component returns the chunks persisted before any
error. -/
def split_loop (shuf : Nat → List α → List α) (chunk_size : Nat) :
    Nat → List α → List (List α) → List α → List (List α) × Option PyError
  | _i, chunk, chunk_files, [] =>
    if chunk.isEmpty then (chunk_files, none)
    else (chunk_files ++ [shuf chunk_files.length chunk], none)
  | i, chunk, chunk_files, line :: rest =>
    if chunk_size = 0 then (chunk_files, some PyError.zeroDivisionError)
    else if (i + 1) % chunk_size = 0 then
      split_loop shuf chunk_size (i + 1) []
        (chunk_files ++ [shuf chunk_files.length (chunk ++ [line])]) rest
    else
      split_loop shuf chunk_size (i + 1) (chunk ++ [line]) chunk_files rest

/-- `split_into_chunks` (src/shuf.py lines 24-58).  The input is `none` when
`open(input_file, 'r')` fails (`FileNotFoundError`), `some lines` otherwise;
the result is the persisted chunks (in creation order, i.e. chunk `k` is at
position `k`) together with the exception, if any, that escaped. -/
def split_into_chunks (shuf : Nat → List α → List α) (input : Option (List α))
    (chunk_size : Nat) : List (List α) × Option PyError :=
  match input with
  | none => ([], some PyError.fileNotFoundError)
  | some lines => split_loop shuf chunk_size 0 [] [] lines

/-- A chunk file path: `os.path.join(temp_dir, f'chunk_{idx}.txt')`
(src/shuf.py line 44).  The decimal rendering of `idx` embeds injectively in
the path string, so paths with distinct indices are distinct. -/
structure ChunkPath where
  dir : String
  idx : Nat
deriving DecidableEq

/-- The chunk file paths created by a split that persisted `n` chunks:
`chunk_0.txt` .. `chunk_{n-1}.txt` inside `temp_dir`. -/
def chunkPathsFor (temp_dir : String) (n : Nat) : List ChunkPath :=
  (List.range n).map (fun k => ⟨temp_dir, k⟩)

/-- Loop body of `merge_chunks` (src/shuf.py lines 69-75): while `chunk_files`
is non-empty, `random.choice` an element (modelled as index `r k` modulo the
current length at the `k`-th draw), append that chunk's full content
(`outfile.writelines(infile.readlines())`, read through `fs`) to the output,
and `chunk_files.remove(selected_chunk)` (remove one occurrence).  The loop
removes one element per iteration, so `fuel = chunk_files.length` makes the
recursion run until the list is empty; the result is the accumulated output
content together with the final state of `chunk_files`. -/
def merge_loop (r : Nat → Nat) (fs : ChunkPath → List α) :
    Nat → Nat → List ChunkPath → List α × List ChunkPath
  | 0, _k, chunk_files => ([], chunk_files)
  | _fuel + 1, _k, [] => ([], [])
  | fuel + 1, k, a :: as =>
    let sel := (a :: as).get ⟨r k % (a :: as).length, Nat.mod_lt _ (Nat.succ_pos as.length)⟩
    let res := merge_loop r fs fuel (k + 1) ((a :: as).erase sel)
    (fs sel ++ res.1, res.2)

/-- The sequence of chunks selected by the `merge_chunks` loop, in the order
they are written to the output file. -/
def mergeTrace_loop (r : Nat → Nat) :
    Nat → Nat → List ChunkPath → List ChunkPath
  | 0, _k, _chunk_files => []
  | _fuel + 1, _k, [] => []
  | fuel + 1, k, a :: as =>
    let sel := (a :: as).get ⟨r k % (a :: as).length, Nat.mod_lt _ (Nat.succ_pos as.length)⟩
    sel :: mergeTrace_loop r fuel (k + 1) ((a :: as).erase sel)

/-- `merge_chunks` (src/shuf.py lines 60-75): returns the content written to
`output_file` and the final state of the (destructively consumed)
`chunk_files` list. -/
def merge_chunks (r : Nat → Nat) (fs : ChunkPath → List α)
    (chunk_files : List ChunkPath) : List α × List ChunkPath :=
  merge_loop r fs chunk_files.length 0 chunk_files

/-- The order in which `merge_chunks` writes chunks to the output. -/
def mergeTrace (r : Nat → Nat) (chunk_files : List ChunkPath) : List ChunkPath :=
  mergeTrace_loop r chunk_files.length 0 chunk_files

/-- What `shuffle_large_file` prints to stderr on failure: either the
`FileNotFoundError` branch (src/shuf.py line 112, a message carrying the
missing input path) or the generic handler (line 115). -/
inductive StderrOut where
  | inputMissing (path : String)
  | genericFailure (e : PyError)
deriving DecidableEq

/-- Observable outcome of one run of `shuffle_large_file`: the content of the
output file (`none` when the output file was never opened), what was printed
to stderr, the process exit status, and the chunk files still on disk after
the `TemporaryDirectory` scope closed. -/
structure RunResult (α : Type) where
  output : Option (List α)
  stderrMsg : Option StderrOut
  exitCode : Nat
  tempRemaining : List ChunkPath

/-- Teardown of `with TemporaryDirectory() as temp_dir` (src/shuf.py line 91):
on leaving the scope, by normal return or by exception, every file under
`temp_dir` is removed; only paths outside `temp_dir` survive. -/
def tempCleanup (temp_dir : String) (files : List ChunkPath) : List ChunkPath :=
  files.filter (fun p => p.dir != temp_dir)

/-- Reading a chunk file back during the merge phase: path
`chunk_{k}.txt` inside `temp_dir` holds the `k`-th persisted chunk. -/
def chunkFS (temp_dir : String) (chunks : List (List α)) : ChunkPath → List α :=
  fun p => if p.dir = temp_dir then chunks.getD p.idx [] else []

/-- `shuffle_large_file` (src/shuf.py lines 77-118): split the input into
shuffled chunks inside a temporary directory, `random.shuffle` the handle list
(`pshuf`, line 104), merge the chunks into the output file, and tear the
temporary directory down on every exit path (`with` scope).
`except FileNotFoundError` reports the missing input path and exits with
status 1; `except Exception` reports any other error and exits with status 1;
on success the process ends with status 0. -/
def shuffle_large_file (shuf : Nat → List α → List α)
    (pshuf : List ChunkPath → List ChunkPath) (r : Nat → Nat)
    (inputFS : String → Option (List α)) (input_file temp_dir : String)
    (chunk_size : Nat) : RunResult α :=
  let sres := split_into_chunks shuf (inputFS input_file) chunk_size
  let created := chunkPathsFor temp_dir sres.1.length
  match sres.2 with
  | some PyError.fileNotFoundError =>
    ⟨none, some (StderrOut.inputMissing input_file), 1, tempCleanup temp_dir created⟩
  | some e =>
    ⟨none, some (StderrOut.genericFailure e), 1, tempCleanup temp_dir created⟩
  | none =>
    let merged := merge_chunks r (chunkFS temp_dir sres.1) (pshuf created)
    ⟨some merged.1, none, 0, tempCleanup temp_dir created⟩

/-- Reference chunking used to state what `split_loop` computes: cut `l` into
blocks, the first `fuel` guarding structural recursion (any
`fuel ≥ l.length` is exact when `0 < C`), shuffling block `j` with `shuf j`. -/
def shuffledBlocksF (shuf : Nat → List α → List α) (C : Nat) :
    Nat → Nat → List α → List (List α)
  | 0, _j, _l => []
  | fuel + 1, j, l =>
    if l.isEmpty then []
    else shuf j (l.take C) :: shuffledBlocksF shuf C fuel (j + 1) (l.drop C)

/-- Python text-file line iteration (`for line in f` /
`infile.readlines()`): split after each newline character, keeping the
terminator; a final segment with no terminator is still a line.  Accumulator
holds the current line reversed. -/
def pySplitLinesAux : List Char → List Char → List (List Char)
  | acc, [] => if acc.isEmpty then [] else [acc.reverse]
  | acc, c :: cs =>
    if c = '\n' then (acc.reverse ++ ['\n']) :: pySplitLinesAux [] cs
    else pySplitLinesAux (c :: acc) cs

/-- Lines of a file content, as Python text-mode iteration yields them. -/
def pySplitLines (content : List Char) : List (List Char) :=
  pySplitLinesAux [] content

/-- Run `shuffle_large_file` on a file whose raw content is `content`,
returning the raw content of the output file (the concatenation of the line
strings that `writelines` wrote, which is how the bytes land on disk). -/
def runOutputContent (shuf : Nat → List (List Char) → List (List Char))
    (pshuf : List ChunkPath → List ChunkPath) (r : Nat → Nat)
    (content : List Char) (chunk_size : Nat) : Option (List Char) :=
  (shuffle_large_file shuf pshuf r (fun _ => some (pySplitLines content))
    ("input.txt") ("tmpdir") chunk_size).output.map List.flatten

/-- A shuffle oracle that reverses the buffer: one of the permutations
`random.shuffle` can produce (for a two-element list it does so with
probability 1/2). -/
def revShuf : Nat → List (List Char) → List (List Char) := fun _ l => l.reverse

/-- The identity shuffle oracle (the identity permutation, which
`random.shuffle` can produce). -/
def idShuf : Nat → List α → List α := fun _ l => l

/-- Successor modulo: the counter `(i + 1) % C` wraps to `0` exactly when the
residue `i % C` has reached `C - 1`. -/
theorem succ_mod_eq (C i : Nat) (hC : 0 < C) :
    (i + 1) % C = if i % C + 1 = C then 0 else i % C + 1 := by
  have h1 : (i % C + 1) % C = (i + 1) % C := Nat.mod_add_mod i C 1
  have h2 : i % C < C := Nat.mod_lt _ hC
  by_cases h : i % C + 1 = C
  · rw [if_pos h, ← h1, h, Nat.mod_self]
  · rw [if_neg h, ← h1,
      Nat.mod_eq_of_lt (Nat.lt_of_le_of_ne (Nat.succ_le_of_lt h2) h)]

/-- The empty list yields no blocks, at any fuel. -/
theorem sbF_nil (shuf : Nat → List α → List α) (C fuel j : Nat) :
    shuffledBlocksF shuf C fuel j ([] : List α) = [] := by
  cases fuel <;> simp [shuffledBlocksF]

/-- Unfolding one step of `shuffledBlocksF` when the head block is full. -/
theorem sbF_step (shuf : Nat → List α → List α) (C f j : Nat) (l1 l2 : List α)
    (hne : l1 ≠ []) (hlen : l1.length = C) :
    shuffledBlocksF shuf C (f + 1) j (l1 ++ l2)
      = shuf j l1 :: shuffledBlocksF shuf C f (j + 1) l2 := by
  have h1 : (l1 ++ l2).isEmpty = false := by
    cases l1 with
    | nil => exact absurd rfl hne
    | cons a as => rfl
  simp only [shuffledBlocksF, h1, Bool.false_eq_true, if_false,
    List.take_left' hlen, List.drop_left' hlen]

/-- Unfolding `shuffledBlocksF` when the whole remainder fits in one block. -/
theorem sbF_last (shuf : Nat → List α → List α) (C f j : Nat) (l : List α)
    (hne : l ≠ []) (hlen : l.length ≤ C) :
    shuffledBlocksF shuf C (f + 1) j l = [shuf j l] := by
  have h1 : l.isEmpty = false := by
    cases l with
    | nil => exact absurd rfl hne
    | cons a as => rfl
  simp only [shuffledBlocksF, h1, Bool.false_eq_true, if_false,
    List.take_of_length_le hlen, List.drop_eq_nil_of_le hlen, sbF_nil]

/-- Closed form of the chunker loop: started with a partial buffer `chunk`
holding `i % C` lines, it persists, after the chunks already in `acc`, exactly
the shuffled `C`-blocks of `chunk ++ rest`, and raises nothing. -/
theorem split_loop_eq (shuf : Nat → List α → List α) {C : Nat} (hC : 0 < C) :
    ∀ (rest : List α) (fuel i : Nat) (chunk : List α) (acc : List (List α)),
      chunk.length = i % C → (chunk ++ rest).length ≤ fuel →
      split_loop shuf C i chunk acc rest
        = (acc ++ shuffledBlocksF shuf C fuel acc.length (chunk ++ rest), none) := by
  intro rest
  induction rest with
  | nil =>
    intro fuel i chunk acc hinv hfuel
    rw [List.append_nil] at hfuel ⊢
    cases chunk with
    | nil => simp [split_loop, sbF_nil]
    | cons c cs =>
      have hlt : (c :: cs).length < C := by rw [hinv]; exact Nat.mod_lt _ hC
      cases fuel with
      | zero => simp at hfuel
      | succ f =>
        rw [sbF_last shuf C f acc.length (c :: cs) (by simp) (Nat.le_of_lt hlt)]
        simp [split_loop]
  | cons line rest ih =>
    intro fuel i chunk acc hinv hfuel
    have hC0 : C ≠ 0 := Nat.pos_iff_ne_zero.mp hC
    have hmod := succ_mod_eq C i hC
    rw [split_loop, if_neg hC0]
    by_cases hflush : i % C + 1 = C
    · have hcond : (i + 1) % C = 0 := by rw [hmod, if_pos hflush]
      rw [if_pos hcond]
      have hlen2 : (chunk ++ [line]).length = C := by
        simp only [List.length_append, List.length_cons, List.length_nil, hinv]
        omega
      cases fuel with
      | zero =>
        exfalso
        simp only [List.length_append, List.length_cons, Nat.le_zero] at hfuel
        omega
      | succ f =>
        have hrest : ((([] : List α)) ++ rest).length ≤ f := by
          simp only [List.nil_append]
          simp only [List.length_append, List.length_cons] at hfuel
          omega
        rw [ih f (i + 1) [] (acc ++ [shuf acc.length (chunk ++ [line])])
          (by simp [hcond]) hrest]
        rw [show chunk ++ line :: rest = (chunk ++ [line]) ++ rest by simp]
        rw [sbF_step shuf C f acc.length (chunk ++ [line]) rest (by simp) hlen2]
        simp
    · have hcond : (i + 1) % C ≠ 0 := by
        rw [hmod, if_neg hflush]
        exact Nat.succ_ne_zero _
      rw [if_neg hcond]
      have hinv2 : (chunk ++ [line]).length = (i + 1) % C := by
        rw [hmod, if_neg hflush]
        simp [hinv]
      have hfuel2 : ((chunk ++ [line]) ++ rest).length ≤ fuel := by
        simpa using hfuel
      rw [ih fuel (i + 1) (chunk ++ [line]) acc hinv2 hfuel2]
      rw [show (chunk ++ [line]) ++ rest = chunk ++ line :: rest by simp]

/-- What `split_into_chunks` computes on a readable input when `0 < C`:
the shuffled `C`-blocks of the input lines, and no exception. -/
theorem split_into_chunks_eq (shuf : Nat → List α → List α) {C : Nat}
    (hC : 0 < C) (lines : List α) :
    split_into_chunks shuf (some lines) C
      = (shuffledBlocksF shuf C lines.length 0 lines, none) := by
  have h := split_loop_eq shuf hC lines lines.length 0 [] [] (by simp) (by simp)
  simpa [split_into_chunks] using h

/-- Concatenating the shuffled blocks back gives a permutation of the input:
nothing is lost, duplicated or altered at the line level. -/
theorem sbF_flatten_perm (shuf : Nat → List α → List α) {C : Nat} (hC : 0 < C)
    (Hs : ∀ j l, (shuf j l).Perm l) :
    ∀ (fuel j : Nat) (l : List α), l.length ≤ fuel →
      (shuffledBlocksF shuf C fuel j l).flatten.Perm l := by
  intro fuel
  induction fuel with
  | zero =>
    intro j l hl
    have h0 : l = [] := List.length_eq_zero.mp (Nat.le_zero.mp hl)
    subst h0
    simp [shuffledBlocksF]
  | succ f ih =>
    intro j l hl
    cases l with
    | nil => simp [shuffledBlocksF]
    | cons a as =>
      have hdl : ((a :: as).drop C).length ≤ f := by
        rw [List.length_drop]
        simp only [List.length_cons] at hl ⊢
        omega
      have hperm : (shuf j ((a :: as).take C)
            ++ (shuffledBlocksF shuf C f (j + 1) ((a :: as).drop C)).flatten).Perm
          ((a :: as).take C ++ (a :: as).drop C) :=
        (Hs j _).append (ih (j + 1) _ hdl)
      rw [List.take_append_drop] at hperm
      simpa [shuffledBlocksF] using hperm

/-- Number of blocks: `⌈l.length / C⌉`, written `(l.length + C - 1) / C`. -/
theorem sbF_length (shuf : Nat → List α → List α) {C : Nat} (hC : 0 < C) :
    ∀ (fuel j : Nat) (l : List α), l.length ≤ fuel →
      (shuffledBlocksF shuf C fuel j l).length = (l.length + C - 1) / C := by
  intro fuel
  induction fuel with
  | zero =>
    intro j l hl
    have h0 : l = [] := List.length_eq_zero.mp (Nat.le_zero.mp hl)
    subst h0
    have hdiv : (C - 1) / C = 0 := Nat.div_eq_of_lt (by omega)
    simp [shuffledBlocksF, hdiv]
  | succ f ih =>
    intro j l hl
    cases l with
    | nil =>
      have hdiv : (C - 1) / C = 0 := Nat.div_eq_of_lt (by omega)
      simp [shuffledBlocksF, hdiv]
    | cons a as =>
      have hdl : ((a :: as).drop C).length ≤ f := by
        rw [List.length_drop]
        simp only [List.length_cons] at hl ⊢
        omega
      have hstep : shuffledBlocksF shuf C (f + 1) j (a :: as)
          = shuf j ((a :: as).take C)
            :: shuffledBlocksF shuf C f (j + 1) ((a :: as).drop C) := by
        simp [shuffledBlocksF]
      rw [hstep, List.length_cons, ih (j + 1) _ hdl, List.length_drop,
        List.length_cons]
      rcases Nat.le_total C (as.length + 1) with hle | hle
      · rw [show as.length + 1 - C + C - 1 = as.length by omega,
          show as.length + 1 + C - 1 = as.length + C by omega,
          Nat.add_div_right _ hC]
      · rw [show as.length + 1 - C = 0 by omega,
          show (0 : Nat) + C - 1 = C - 1 by omega,
          Nat.div_eq_of_lt (show C - 1 < C by omega),
          show as.length + 1 + C - 1 = as.length + C by omega,
          Nat.add_div_right _ hC,
          Nat.div_eq_of_lt (show as.length < C by omega)]

/-- Block `k` is a permutation of the `k`-th contiguous `C`-block of the
input. -/
theorem sbF_get?_perm (shuf : Nat → List α → List α) {C : Nat} (hC : 0 < C)
    (Hs : ∀ j l, (shuf j l).Perm l) :
    ∀ (fuel j : Nat) (l : List α), l.length ≤ fuel → ∀ (k : Nat) (c : List α),
      (shuffledBlocksF shuf C fuel j l).get? k = some c →
      c.Perm ((l.drop (k * C)).take C) := by
  intro fuel
  induction fuel with
  | zero =>
    intro j l hl k c hk
    have h0 : l = [] := List.length_eq_zero.mp (Nat.le_zero.mp hl)
    subst h0
    simp [shuffledBlocksF] at hk
  | succ f ih =>
    intro j l hl k c hk
    cases l with
    | nil => simp [shuffledBlocksF] at hk
    | cons a as =>
      have hdl : ((a :: as).drop C).length ≤ f := by
        rw [List.length_drop]
        simp only [List.length_cons] at hl ⊢
        omega
      have hstep : shuffledBlocksF shuf C (f + 1) j (a :: as)
          = shuf j ((a :: as).take C)
            :: shuffledBlocksF shuf C f (j + 1) ((a :: as).drop C) := by
        simp [shuffledBlocksF]
      rw [hstep] at hk
      cases k with
      | zero =>
        rw [List.get?_cons_zero] at hk
        cases hk
        simpa using Hs j ((a :: as).take C)
      | succ k =>
        rw [List.get?_cons_succ] at hk
        have h := ih (j + 1) _ hdl k c hk
        rw [List.drop_drop, show C + k * C = (k + 1) * C by ring] at h
        exact h

/-- Every block followed by another block holds exactly `C` lines (only the
final block may be shorter). -/
theorem sbF_get?_length (shuf : Nat → List α → List α) {C : Nat} (hC : 0 < C)
    (Hs : ∀ j l, (shuf j l).Perm l) :
    ∀ (fuel j : Nat) (l : List α), l.length ≤ fuel →
      ∀ (k : Nat) (c c2 : List α),
      (shuffledBlocksF shuf C fuel j l).get? k = some c →
      (shuffledBlocksF shuf C fuel j l).get? (k + 1) = some c2 →
      c.length = C := by
  intro fuel
  induction fuel with
  | zero =>
    intro j l hl k c c2 hk _hk2
    have h0 : l = [] := List.length_eq_zero.mp (Nat.le_zero.mp hl)
    subst h0
    simp [shuffledBlocksF] at hk
  | succ f ih =>
    intro j l hl k c c2 hk hk2
    cases l with
    | nil => simp [shuffledBlocksF] at hk
    | cons a as =>
      have hdl : ((a :: as).drop C).length ≤ f := by
        rw [List.length_drop]
        simp only [List.length_cons] at hl ⊢
        omega
      have hstep : shuffledBlocksF shuf C (f + 1) j (a :: as)
          = shuf j ((a :: as).take C)
            :: shuffledBlocksF shuf C f (j + 1) ((a :: as).drop C) := by
        simp [shuffledBlocksF]
      rw [hstep] at hk hk2
      cases k with
      | zero =>
        rw [List.get?_cons_zero] at hk
        cases hk
        rw [List.get?_cons_succ] at hk2
        have hdne : (a :: as).drop C ≠ [] := by
          intro hnil
          rw [hnil, sbF_nil] at hk2
          simp at hk2
        have hCle : C ≤ (a :: as).length := by
          by_contra hgt
          exact hdne (List.drop_eq_nil_of_le (Nat.le_of_lt (Nat.lt_of_not_le hgt)))
        have hCln : C < (a :: as).length := by
          rcases Nat.lt_or_ge C (a :: as).length with h | h
          · exact h
          · exact absurd (List.drop_eq_nil_of_le h) hdne
        rw [(Hs j ((a :: as).take C)).length_eq, List.length_take]
        omega
      | succ k =>
        rw [List.get?_cons_succ] at hk hk2
        exact ih (j + 1) _ hdl k c c2 hk hk2

/-- The merge loop always drains `chunk_files` completely. -/
theorem merge_loop_snd (r : Nat → Nat) (fs : ChunkPath → List α) :
    ∀ (fuel k : Nat) (l : List ChunkPath), l.length ≤ fuel →
      (merge_loop r fs fuel k l).2 = [] := by
  intro fuel
  induction fuel with
  | zero =>
    intro k l hl
    have h0 : l = [] := List.length_eq_zero.mp (Nat.le_zero.mp hl)
    subst h0
    rfl
  | succ f ih =>
    intro k l hl
    cases l with
    | nil => rfl
    | cons a as =>
      simp only [merge_loop]
      apply ih
      have hmem : (a :: as).get
          ⟨r k % (a :: as).length, Nat.mod_lt _ (Nat.succ_pos as.length)⟩
          ∈ a :: as := List.get_mem _ _ _
      rw [List.length_erase_of_mem hmem]
      simp only [List.length_cons] at hl ⊢
      omega

/-- The order in which the merge loop writes chunks is a permutation of the
handle list it started from: each handle is selected, written, and removed
exactly once. -/
theorem mergeTrace_loop_perm (r : Nat → Nat) :
    ∀ (fuel k : Nat) (l : List ChunkPath), l.length ≤ fuel →
      (mergeTrace_loop r fuel k l).Perm l := by
  intro fuel
  induction fuel with
  | zero =>
    intro k l hl
    have h0 : l = [] := List.length_eq_zero.mp (Nat.le_zero.mp hl)
    subst h0
    exact List.Perm.refl _
  | succ f ih =>
    intro f2 l hl
    cases l with
    | nil => exact List.Perm.refl _
    | cons a as =>
      simp only [mergeTrace_loop]
      have hmem : (a :: as).get
          ⟨r f2 % (a :: as).length, Nat.mod_lt _ (Nat.succ_pos as.length)⟩
          ∈ a :: as := List.get_mem _ _ _
      have hlen : ((a :: as).erase ((a :: as).get
          ⟨r f2 % (a :: as).length, Nat.mod_lt _ (Nat.succ_pos as.length)⟩)).length ≤ f := by
        rw [List.length_erase_of_mem hmem]
        simp only [List.length_cons] at hl ⊢
        omega
      exact (List.Perm.cons _ (ih (f2 + 1) _ hlen)).trans
        (List.perm_cons_erase hmem).symm

/-- The content the merge loop writes is the concatenation of the chunks it
selects, whole and in selection order. -/
theorem merge_loop_fst (r : Nat → Nat) (fs : ChunkPath → List α) :
    ∀ (fuel k : Nat) (l : List ChunkPath),
      (merge_loop r fs fuel k l).1
        = ((mergeTrace_loop r fuel k l).map fs).flatten := by
  intro fuel
  induction fuel with
  | zero => intro k l; rfl
  | succ f ih =>
    intro k l
    cases l with
    | nil => rfl
    | cons a as =>
      simp only [merge_loop, mergeTrace_loop, List.map_cons, List.flatten_cons]
      rw [ih]

/-- Every chunk file the split phase creates lives inside the temporary
directory, so the `TemporaryDirectory` teardown removes them all. -/
theorem tempCleanup_chunkPathsFor (t : String) (n : Nat) :
    tempCleanup t (chunkPathsFor t n) = [] := by
  simp only [tempCleanup, chunkPathsFor, List.filter_eq_nil_iff]
  intro p hp
  obtain ⟨k, _hk, hpk⟩ := List.mem_map.mp hp
  subst hpk
  simp

/-- The chunk file paths `chunk_0.txt .. chunk_{n-1}.txt` are pairwise
distinct. -/
theorem chunkPathsFor_nodup (t : String) (n : Nat) :
    (chunkPathsFor t n).Nodup := by
  apply List.Nodup.map _ (List.nodup_range n)
  intro x y hxy
  exact congrArg ChunkPath.idx hxy

/-- C1: the claim fails on the code.  Take the input file content `"a\nb"` —
two lines, `"a\n"` and `"b"`, the final one with no trailing terminator — and
chunk size 2, and a run in which `random.shuffle` reverses the single chunk
(a permutation it produces with probability 1/2; the first conjunct checks
the reversing oracle really is a permutation oracle).  `writelines` then
stores the file content `"ba\n"`, which has the single line `"ba\n"`: the
multiset of lines of the output file differs from the multiset of lines of
the input file, so a line was lost and another altered, exactly in the
unterminated-final-line case the claim covers. -/
theorem C1_terminator_code_bug :
    (∀ (k : Nat) (l : List (List Char)), (revShuf k l).Perm l) ∧
    pySplitLines (['a', '\n', 'b']) = [['a', '\n'], ['b']] ∧
    runOutputContent revShuf id (fun _ => 0) (['a', '\n', 'b']) 2
      = some (['b', 'a', '\n']) ∧
    pySplitLines (['b', 'a', '\n']) = [['b', 'a', '\n']] ∧
    ¬ (pySplitLines (['b', 'a', '\n'])).Perm (pySplitLines (['a', '\n', 'b'])) :=
  ⟨fun _ l => l.reverse_perm, by decide, by decide, by decide, by decide⟩

/-- C2: for chunk capacity `C ≥ 1` and any permutation-valid shuffle oracle,
`split_into_chunks` raises nothing, chunk `k` is exactly a permutation of the
`k`-th contiguous block of `C` input lines (the final chunk taking the
remainder), and every chunk that is followed by another chunk holds exactly
`C` lines. -/
theorem C2_chunk_permutation (shuf : Nat → List α → List α) (C : Nat)
    (lines : List α) (k : Nat) (hC : 0 < C)
    (Hs : ∀ j l, (shuf j l).Perm l) :
    (split_into_chunks shuf (some lines) C).2 = none ∧
    ∀ c, (split_into_chunks shuf (some lines) C).1.get? k = some c →
      c.Perm ((lines.drop (k * C)).take C) ∧
      ∀ c2, (split_into_chunks shuf (some lines) C).1.get? (k + 1) = some c2 →
        c.length = C := by
  rw [split_into_chunks_eq shuf hC lines]
  exact ⟨rfl, fun c hc =>
    ⟨sbF_get?_perm shuf hC Hs lines.length 0 lines (le_refl _) k c hc,
     fun c2 hc2 =>
       sbF_get?_length shuf hC Hs lines.length 0 lines (le_refl _) k c c2 hc hc2⟩⟩

/-- Witness for C2: input `[1, 2, 3, 4, 5]`, chunk size 2, identity shuffle;
chunk 0 is a permutation of the first block `[1, 2]` and, not being last, has
exactly 2 lines. -/
theorem C2_chunk_permutation_witness :
    (0 < 2) ∧ (∀ (j : Nat) (l : List Nat), (idShuf j l).Perm l) ∧
    ((split_into_chunks (idShuf : Nat → List Nat → List Nat)
        (some [1, 2, 3, 4, 5]) 2).2 = none ∧
     ∀ c, (split_into_chunks (idShuf : Nat → List Nat → List Nat)
        (some [1, 2, 3, 4, 5]) 2).1.get? 0 = some c →
       c.Perm (([1, 2, 3, 4, 5].drop (0 * 2)).take 2) ∧
       ∀ c2, (split_into_chunks (idShuf : Nat → List Nat → List Nat)
          (some [1, 2, 3, 4, 5]) 2).1.get? (0 + 1) = some c2 →
         c.length = 2) :=
  ⟨by decide, fun _ l => List.Perm.refl l,
   C2_chunk_permutation idShuf 2 [1, 2, 3, 4, 5] 0 (by decide)
     (fun _ l => List.Perm.refl l)⟩

/-- C3: for chunk size `C ≥ 1` and an input with `N` lines,
`split_into_chunks` produces exactly `⌈N / C⌉ = (N + C - 1) / C` chunks — 0
chunks for an empty input — and when `C` exceeds `N > 0` it produces exactly
one chunk holding all `N` lines permuted. -/
theorem C3_chunk_count (shuf : Nat → List α → List α) (C : Nat)
    (lines : List α) (hC : 0 < C) (Hs : ∀ j l, (shuf j l).Perm l) :
    (split_into_chunks shuf (some lines) C).1.length
        = (lines.length + C - 1) / C ∧
    (lines = [] → (split_into_chunks shuf (some lines) C).1.length = 0) ∧
    (0 < lines.length → lines.length < C →
      ∃ c, (split_into_chunks shuf (some lines) C).1 = [c] ∧ c.Perm lines) := by
  rw [split_into_chunks_eq shuf hC lines]
  refine ⟨sbF_length shuf hC lines.length 0 lines (le_refl _), ?_, ?_⟩
  · intro h
    subst h
    simp [sbF_nil]
  · intro hpos hlt
    have hlen1 : (shuffledBlocksF shuf C lines.length 0 lines).length = 1 := by
      rw [sbF_length shuf hC lines.length 0 lines (le_refl _),
        show lines.length + C - 1 = (lines.length - 1) + C by omega,
        Nat.add_div_right _ hC, Nat.div_eq_of_lt (by omega)]
    obtain ⟨c, hc⟩ := List.length_eq_one.mp hlen1
    refine ⟨c, hc, ?_⟩
    have hj := sbF_flatten_perm shuf hC Hs lines.length 0 lines (le_refl _)
    rw [hc] at hj
    simpa using hj

/-- Witness for C3: input `[1, 2, 3]`, chunk size 10 (larger than the line
count), identity shuffle; exactly `⌈3 / 10⌉ = 1` chunk, a permutation of all
three lines. -/
theorem C3_chunk_count_witness :
    (0 < 10) ∧ (∀ (j : Nat) (l : List Nat), (idShuf j l).Perm l) ∧
    (split_into_chunks (idShuf : Nat → List Nat → List Nat)
        (some [1, 2, 3]) 10).1.length = ([1, 2, 3].length + 10 - 1) / 10 ∧
    (∃ c, (split_into_chunks (idShuf : Nat → List Nat → List Nat)
        (some [1, 2, 3]) 10).1 = [c] ∧ c.Perm [1, 2, 3]) :=
  ⟨by decide, fun _ l => List.Perm.refl l,
   (C3_chunk_count idShuf 10 [1, 2, 3] (by decide)
     (fun _ l => List.Perm.refl l)).1,
   (C3_chunk_count idShuf 10 [1, 2, 3] (by decide)
     (fun _ l => List.Perm.refl l)).2.2 (by decide) (by decide)⟩

/-- C4: the output `merge_chunks` writes is a concatenation of whole, intact
chunks in some order of the handles: there is a sequence of handles,
a permutation of `chunk_files`, such that the output is exactly the
concatenation of those chunks' contents, each chunk's lines verbatim and in
the order the chunk file stores them (the order the Chunker's in-chunk
shuffle fixed); in particular lines of different chunks never interleave. -/
theorem C4_no_interleave (r : Nat → Nat) (fs : ChunkPath → List α)
    (chunk_files : List ChunkPath) :
    ∃ seq : List ChunkPath, seq.Perm chunk_files ∧
      (merge_chunks r fs chunk_files).1 = (seq.map fs).flatten :=
  ⟨mergeTrace r chunk_files,
   mergeTrace_loop_perm r chunk_files.length 0 chunk_files (le_refl _),
   merge_loop_fst r fs chunk_files.length 0 chunk_files⟩

/-- C5: the merge phase writes every handle's chunk exactly once — the
written sequence is a permutation of the handle list — and consumes the
handle collection: `chunk_files` is empty when `merge_chunks` returns. -/
theorem C5_merge_exhaustive (r : Nat → Nat) (fs : ChunkPath → List α)
    (chunk_files : List ChunkPath) :
    (mergeTrace r chunk_files).Perm chunk_files ∧
    (merge_chunks r fs chunk_files).2 = [] :=
  ⟨mergeTrace_loop_perm r chunk_files.length 0 chunk_files (le_refl _),
   merge_loop_snd r fs chunk_files.length 0 chunk_files (le_refl _)⟩

/-- C6: on every run of `shuffle_large_file` — missing input, in-split
exception, or success — the temporary storage area is torn down before the
run ends: no chunk file survives, because every chunk file is created inside
`temp_dir` and the `with TemporaryDirectory()` scope removes `temp_dir` on
all exit paths. -/
theorem C6_cleanup (shuf : Nat → List α → List α)
    (pshuf : List ChunkPath → List ChunkPath) (r : Nat → Nat)
    (inputFS : String → Option (List α)) (input_file temp_dir : String)
    (chunk_size : Nat) :
    (shuffle_large_file shuf pshuf r inputFS input_file temp_dir
      chunk_size).tempRemaining = [] := by
  rcases hsplit : (split_into_chunks shuf (inputFS input_file) chunk_size).2
    with _ | e
  · simp [shuffle_large_file, hsplit, tempCleanup_chunkPathsFor]
  · cases e <;> simp [shuffle_large_file, hsplit, tempCleanup_chunkPathsFor]

/-- C7: when the input path does not resolve to a readable file,
`split_into_chunks` raises `FileNotFoundError`, the orchestrator reports an
error identifying the missing path on stderr, the process exits with status
1, and no shuffled output is written (the output file is never opened). -/
theorem C7_input_not_found (shuf : Nat → List α → List α)
    (pshuf : List ChunkPath → List ChunkPath) (r : Nat → Nat)
    (inputFS : String → Option (List α)) (input_file temp_dir : String)
    (chunk_size : Nat) (h : inputFS input_file = none) :
    (split_into_chunks shuf (inputFS input_file) chunk_size).2
        = some PyError.fileNotFoundError ∧
    shuffle_large_file shuf pshuf r inputFS input_file temp_dir chunk_size
      = ⟨none, some (StderrOut.inputMissing input_file), 1, []⟩ := by
  constructor
  · rw [h]
    rfl
  · simp [shuffle_large_file, split_into_chunks, h, chunkPathsFor, tempCleanup]

/-- Witness for C7: a file system with no readable files, concrete paths and
chunk size. -/
theorem C7_input_not_found_witness :
    ((fun _ : String => (none : Option (List Nat))) ("missing.txt") = none) ∧
    ((split_into_chunks (idShuf : Nat → List Nat → List Nat)
        ((fun _ : String => (none : Option (List Nat))) ("missing.txt")) 5).2
      = some PyError.fileNotFoundError ∧
     shuffle_large_file (idShuf : Nat → List Nat → List Nat) id (fun _ => 0)
        (fun _ : String => (none : Option (List Nat))) ("missing.txt")
        ("tmpd") 5
      = ⟨none, some (StderrOut.inputMissing ("missing.txt")), 1, []⟩) :=
  ⟨rfl, C7_input_not_found idShuf id (fun _ => 0) (fun _ => none)
    ("missing.txt") ("tmpd") 5 rfl⟩

/-- C8: an empty input produces zero chunk handles for any chunk size
(including 0: the loop body, and with it the modulo, never runs), and the
run still creates the output file, empty, and exits with status 0. -/
theorem C8_empty_input (shuf : Nat → List α → List α)
    (pshuf : List ChunkPath → List ChunkPath) (r : Nat → Nat)
    (input_file temp_dir : String) (chunk_size : Nat)
    (Hp : ∀ l, (pshuf l).Perm l) :
    split_into_chunks shuf (some ([] : List α)) chunk_size = ([], none) ∧
    (shuffle_large_file shuf pshuf r (fun _ => some ([] : List α))
      input_file temp_dir chunk_size).output = some [] ∧
    (shuffle_large_file shuf pshuf r (fun _ => some ([] : List α))
      input_file temp_dir chunk_size).exitCode = 0 := by
  have hsplit : split_into_chunks shuf (some ([] : List α)) chunk_size
      = ([], none) := rfl
  have hp0 : pshuf [] = [] := (Hp []).eq_nil
  refine ⟨hsplit, ?_, ?_⟩ <;>
    simp [shuffle_large_file, hsplit, chunkPathsFor, hp0, merge_chunks,
      merge_loop]

/-- Witness for C8: identity handle shuffle, concrete strings and chunk
size 3. -/
theorem C8_empty_input_witness :
    (∀ l : List ChunkPath, (id l).Perm l) ∧
    (split_into_chunks (idShuf : Nat → List Nat → List Nat)
        (some ([] : List Nat)) 3 = ([], none) ∧
     (shuffle_large_file (idShuf : Nat → List Nat → List Nat) id (fun _ => 0)
        (fun _ => some ([] : List Nat)) ("in.txt") ("tmpd") 3).output
       = some [] ∧
     (shuffle_large_file (idShuf : Nat → List Nat → List Nat) id (fun _ => 0)
        (fun _ => some ([] : List Nat)) ("in.txt") ("tmpd") 3).exitCode = 0) :=
  ⟨fun l => List.Perm.refl l,
   C8_empty_input idShuf id (fun _ => 0) ("in.txt") ("tmpd") 3
     (fun l => List.Perm.refl l)⟩

/-- C9: the modulo `(i + 1) % chunk_size` is unguarded.  For every
`chunk_size ≥ 1` it is always well defined and the split raises nothing; for
`chunk_size = 0` and any non-empty input the first loop iteration raises
`ZeroDivisionError`, which the orchestrator's generic handler turns into exit
status 1. -/
theorem C9_modulo_guard (shuf : Nat → List α → List α)
    (pshuf : List ChunkPath → List ChunkPath) (r : Nat → Nat)
    (lines : List α) (input_file temp_dir : String) :
    (∀ C : Nat, 0 < C → (split_into_chunks shuf (some lines) C).2 = none) ∧
    (lines ≠ [] →
      (split_into_chunks shuf (some lines) 0).2
          = some PyError.zeroDivisionError ∧
      (shuffle_large_file shuf pshuf r (fun _ => some lines) input_file
        temp_dir 0).exitCode = 1) := by
  constructor
  · intro C hC
    rw [split_into_chunks_eq shuf hC lines]
  · intro hne
    have hz : (split_into_chunks shuf (some lines) 0).2
        = some PyError.zeroDivisionError := by
      cases lines with
      | nil => exact absurd rfl hne
      | cons a as => rfl
    refine ⟨hz, ?_⟩
    simp [shuffle_large_file, hz]

/-- Witness for C9: one-line input `[1]`; chunk size 2 raises nothing, chunk
size 0 raises `ZeroDivisionError` and the run exits with status 1. -/
theorem C9_modulo_guard_witness :
    (0 < 2) ∧ (([1] : List Nat) ≠ []) ∧
    (split_into_chunks (idShuf : Nat → List Nat → List Nat)
        (some [1]) 2).2 = none ∧
    (split_into_chunks (idShuf : Nat → List Nat → List Nat)
        (some [1]) 0).2 = some PyError.zeroDivisionError ∧
    (shuffle_large_file (idShuf : Nat → List Nat → List Nat) id (fun _ => 0)
        (fun _ => some [1]) ("in.txt") ("tmpd") 0).exitCode = 1 :=
  ⟨by decide, by decide,
   (C9_modulo_guard idShuf id (fun _ => 0) [1] ("in.txt") ("tmpd")).1 2
     (by decide),
   ((C9_modulo_guard idShuf id (fun _ => 0) [1] ("in.txt") ("tmpd")).2
     (by decide)).1,
   ((C9_modulo_guard idShuf id (fun _ => 0) [1] ("in.txt") ("tmpd")).2
     (by decide)).2⟩

/-- C10: the merge loop terminates on every finite handle list — each
iteration removes exactly one occurrence of the element it just selected (an
element of the list), the length strictly decreases, and the loop runs
exactly as many iterations as the initial length, ending with the empty
collection; the handle paths `chunk_0.txt, chunk_1.txt, ...` that the split
phase produces are pairwise distinct, so the removed entry is the handle just
written. -/
theorem C10_merge_termination (r : Nat → Nat) (fs : ChunkPath → List α)
    (temp_dir : String) (n : Nat) (chunk_files : List ChunkPath) :
    (chunkPathsFor temp_dir n).Nodup ∧
    (mergeTrace r chunk_files).length = chunk_files.length ∧
    (merge_chunks r fs chunk_files).2 = [] :=
  ⟨chunkPathsFor_nodup temp_dir n,
   (mergeTrace_loop_perm r chunk_files.length 0 chunk_files
     (le_refl _)).length_eq,
   merge_loop_snd r fs chunk_files.length 0 chunk_files (le_refl _)⟩

end Shuf
